import Mathlib

/-!
Verification of the relationship graph engine of the Convergent plugin
(reference resolver, relationship validator, relationship mutator).

The embedding follows the TypeScript source:
  - `src/utils/relationships.ts`  (class RelationshipUtils)
  - `src/commands/relationship-commands.ts` (class RelationshipCommands)
  - `src/utils/frontmatter.ts` (class FrontmatterUtils)

The host application's Entity Store (Obsidian's metadata cache and file
manager) is modelled as an explicit `Store` value: a list of files plus a
per-path frontmatter map.  Name lookup (`getFirstLinkpathDest`) is host-API
code that is not part of the repository; it is modelled from the spec as a
first-match lookup over the store's name index.
-/

namespace Convergent

/-- RelationType from `src/types/index.ts`:
`parent`, `child`, `blocks`, `blocked-by`, `related`. -/
inductive RelationType where
  | parent
  | child
  | blocks
  | blockedBy
  | related
  deriving DecidableEq, Repr

/-- A vault file (Obsidian `TFile`): identified by its `path`,
displayed by its `basename`. -/
structure FileRec where
  path : String
  basename : String
  deriving DecidableEq, Repr

/-- The relationship fields of one file's YAML frontmatter.
`parent` is single-valued; the other four fields are ordered lists of
wikilink strings.  `none` models an absent key (in the source, a key whose
value is `undefined` is dropped from the YAML). -/
structure Frontmatter where
  parent : Option String := none
  subIssues : Option (List String) := none
  blockedBy : Option (List String) := none
  blocks : Option (List String) := none
  related : Option (List String) := none
  deriving DecidableEq, Repr

/-- The Entity Store: the vault's files together with each path's
frontmatter.  Modelled from the spec: the store is the single source of
truth that the core reads and writes through the host API. -/
structure Store where
  files : List FileRec
  fm : String → Frontmatter

/-- `FrontmatterUtils.updateFrontmatter` restricted to one relationship
field: apply `f` to the frontmatter stored at path `p`. -/
def Store.setFm (s : Store) (p : String) (f : Frontmatter → Frontmatter) : Store :=
  { files := s.files, fm := fun q => if q = p then f (s.fm q) else s.fm q }

/-- JavaScript's `String.prototype.trim`, modelled on the character list:
drop whitespace from both ends. -/
def trimChars (cs : List Char) : List Char :=
  ((cs.dropWhile Char.isWhitespace).reverse.dropWhile Char.isWhitespace).reverse

/-- One attempted match of the regex body after an opening `[[`:
`[^\]|]+ (\|[^\]]+)? ]]`.  Returns the captured name (group 1) and the
characters remaining after the closing `]]`; `none` when the attempt at
this position fails. -/
def matchInner (cs : List Char) : Option (List Char × List Char) :=
  if (cs.takeWhile fun c => !(c == ']' || c == '|')).isEmpty then none
  else
    match cs.dropWhile fun c => !(c == ']' || c == '|') with
    | ']' :: ']' :: rest2 => some (cs.takeWhile fun c => !(c == ']' || c == '|'), rest2)
    | '|' :: restAl =>
      if (restAl.takeWhile fun c => !(c == ']')).isEmpty then none
      else
        match restAl.dropWhile fun c => !(c == ']') with
        | ']' :: ']' :: rest2 => some (cs.takeWhile fun c => !(c == ']' || c == '|'), rest2)
        | _ => none
    | _ => none

/-- The global regex scan: at each position try a match; on success emit
the trimmed capture (`match[1].trim()`) and continue after the match,
otherwise advance one character.  The `fuel` argument only makes the
recursion structural; a fuel of the list length always suffices
(`scanAux_fuel`). -/
def scanAux : Nat → List Char → List String
  | 0, _ => []
  | _ + 1, [] => []
  | fuel + 1, c :: cs =>
    if c = '[' then
      match cs with
      | '[' :: rest =>
        match matchInner rest with
        | some (nm, rest2) => String.mk (trimChars nm) :: scanAux fuel rest2
        | none => scanAux fuel cs
      | _ => scanAux fuel cs
    else scanAux fuel cs

/-- `parseWikilinks` on a single string input. -/
def parseWikilinksStr (s : String) : List String :=
  if s = "" then [] else scanAux s.data.length s.data

/-- The `string | string[]` union type of `parseWikilinks`' argument. -/
inductive StrOrList where
  | str : String → StrOrList
  | list : List String → StrOrList

/-- `RelationshipUtils.parseWikilinks`: an array input is parsed item by
item and concatenated; a falsy (empty) string yields `[]`; otherwise the
regex scan runs over the string. -/
def parseWikilinks : StrOrList → List String
  | .str s => parseWikilinksStr s
  | .list l => l.flatMap parseWikilinksStr

/-- Strip one leading `[[` (the `^\[\[` alternative of the replace
regex in `resolveLink`). -/
def stripLeadBrackets : List Char → List Char
  | '[' :: '[' :: rest => rest
  | cs => cs

/-- Strip one trailing `]]` (the `\]\]$` alternative). -/
def stripTrailBrackets (cs : List Char) : List Char :=
  match cs.reverse with
  | ']' :: ']' :: rest => rest.reverse
  | _ => cs

/-- The `replace(/^\[\[|\]\]$/g, '').trim()` cleanup in `resolveLink`:
strip one leading `[[` and one trailing `]]`, then trim. -/
def cleanLinkText (t : String) : String :=
  String.mk (trimChars (stripTrailBrackets (stripLeadBrackets t.data)))

/-- Modelled from the spec: the Entity Store's name index
(`findEntityByDisplayName` / the host's `getFirstLinkpathDest`, which is
host-application code outside this repository).  Returns the first file
whose basename equals the cleaned link text. -/
def findByName (s : Store) (nm : String) : Option FileRec :=
  s.files.find? fun f => f.basename == nm

/-- `RelationshipUtils.resolveLink`: falsy input resolves to nothing,
otherwise the cleaned link text is looked up in the name index. -/
def resolveLink (s : Store) (linkText : String) : Option FileRec :=
  if linkText = "" then none
  else findByName s (cleanLinkText linkText)

/-- `RelationshipUtils.resolveLinks`: map `resolveLink`, drop failures. -/
def resolveLinks (s : Store) (links : List String) : List FileRec :=
  links.filterMap (resolveLink s)

/-- `RelationshipUtils.fileToWikilink`. -/
def fileToWikilink (f : FileRec) : String :=
  "[[" ++ f.basename ++ "]]"

/-- The parse-then-resolve idiom used by the mutators' removal filters:
`resolveLink(parseWikilinks(link)[0])` (an absent first payload behaves
like `resolveLink(undefined)`, which is `null`). -/
def resolveEntry (s : Store) (link : String) : Option FileRec :=
  match (parseWikilinksStr link).head? with
  | none => none
  | some t => resolveLink s t

/-- `RelationshipUtils.detectCycleRecursive`: walk up the `parent` chain
from `current`, looking for a node whose resolved parent is `target`;
stop (no cycle) on a revisit, a missing parent field, an unparsable link,
or a dangling reference.  The source recursion carries no fuel; here
`fuel` only makes the recursion structural, and `detectCycleAux_fuel`
shows any fuel of at least `(s.files.filter ...).length + 2` gives the
same answer, so the wrapper's fuel is always enough. -/
def detectCycleAux (s : Store) (target : String) : Nat → FileRec → List String → Bool
  | 0, _, _ => false
  | fuel + 1, current, visited =>
    if current.path ∈ visited then false
    else
      match (s.fm current.path).parent with
      | none => false
      | some parentLink =>
        match (parseWikilinksStr parentLink).head? with
        | none => false
        | some parentText =>
          match resolveLink s parentText with
          | none => false
          | some parentFile =>
            if parentFile.path = target then true
            else detectCycleAux s target fuel parentFile (current.path :: visited)

/-- Fuel with which the wrapper runs the walk; provably sufficient. -/
def cycleFuel (s : Store) : Nat := s.files.length + 2

/-- `RelationshipUtils.detectParentCycle`: would making `parentFile` the
parent of `issue` close a cycle?  Starts the walk at `parentFile` with an
empty visited set, looking for `issue`. -/
def detectParentCycle (s : Store) (issue parentFile : FileRec) : Bool :=
  detectCycleAux s issue.path (cycleFuel s) parentFile []

/-- `RelationshipUtils.validateRelationship`: self-links are rejected for
every relation type; `parent` and `child` additionally reject ancestor
cycles (the `child` case runs the same check with the endpoints
swapped); other types always pass. -/
def validateRelationship (s : Store) (t : RelationType) (source target : FileRec) : Bool :=
  if source.path = target.path then false
  else if t = .parent then !(detectParentCycle s source target)
  else if t = .child then !(detectParentCycle s target source)
  else true

/-- Outcome signalled to the caller by a mutator operation (the source
surfaces these as `Notice` messages and early returns). -/
inductive MutResult where
  | ok
  | cycleRejected
  | alreadyExists
  deriving DecidableEq, Repr

/-- `RelationshipCommands.removeFromSubIssues`: if the parent has a
`sub-issues` array, keep only the entries whose parsed-and-resolved
target is not `child`; write the filtered array back, or clear the field
when the result is empty. -/
def removeFromSubIssues (s : Store) (parentFile child : FileRec) : Store :=
  match (s.fm parentFile.path).subIssues with
  | none => s
  | some subs =>
    let subs2 := subs.filter fun l =>
      decide ((resolveEntry s l).map FileRec.path ≠ some child.path)
    s.setFm parentFile.path fun r =>
      { r with subIssues := if subs2.length > 0 then some subs2 else none }

/-- `RelationshipCommands.addToSubIssues`: no write when some existing
entry already resolves (via raw `resolveLinks`) to `child`; otherwise
append the canonical wikilink for `child`. -/
def addToSubIssues (s : Store) (parentFile child : FileRec) : Store :=
  let subIssues := ((s.fm parentFile.path).subIssues).getD []
  let existing := resolveLinks s subIssues
  if existing.any fun f => f.path == child.path then s
  else
    s.setFm parentFile.path fun r =>
      { r with subIssues := some (subIssues ++ [fileToWikilink child]) }

/-- The current-parent lookup at the top of
`RelationshipCommands.setParent`: read the issue's `parent` field, take
the first parsed payload, resolve it. -/
def currentParentOf (s : Store) (issue : FileRec) : Option FileRec :=
  match (s.fm issue.path).parent with
  | none => none
  | some link =>
    match (parseWikilinksStr link).head? with
    | none => none
    | some t => resolveLink s t

/-- The detach step of `setParent`: if a current parent resolves, remove
`issue` from that parent's `sub-issues`.  In the source this runs before
the Validator is consulted. -/
def setParentDetach (s : Store) (issue : FileRec) : Store :=
  match currentParentOf s issue with
  | some cp => removeFromSubIssues s cp issue
  | none => s

/-- `RelationshipCommands.setParent`: detach from the old parent first;
then, for a non-null new parent, validate (against the post-detach
state) and on success write the issue's `parent` field and attach to the
new parent's `sub-issues`; on rejection stop with `cycleRejected`.  A
null new parent just clears the `parent` field. -/
def setParent (s : Store) (issue : FileRec) (parentFile : Option FileRec) :
    Store × MutResult :=
  let s1 := setParentDetach s issue
  match parentFile with
  | some p =>
    if validateRelationship s1 .parent issue p then
      let s2 := s1.setFm issue.path fun r => { r with parent := some (fileToWikilink p) }
      (addToSubIssues s2 p issue, .ok)
    else (s1, .cycleRejected)
  | none => (s1.setFm issue.path fun r => { r with parent := none }, .ok)

/-- `RelationshipCommands.addBlocker`: report `alreadyExists` (and write
nothing) when an existing `blocked-by` entry raw-resolves to the blocker;
otherwise append the blocker to `blocked`'s `blocked-by` and the blocked
issue to `blocker`'s `blocks` (both arrays read before the writes). -/
def addBlocker (s : Store) (blocked blocker : FileRec) : Store × MutResult :=
  let blockedData := s.fm blocked.path
  let blockerData := s.fm blocker.path
  let dup := match blockedData.blockedBy with
    | some arr => (resolveLinks s arr).any fun f => f.path == blocker.path
    | none => false
  if dup then (s, .alreadyExists)
  else
    let blockedByLinks := blockedData.blockedBy.getD [] ++ [fileToWikilink blocker]
    let s1 := s.setFm blocked.path fun r => { r with blockedBy := some blockedByLinks }
    let blocksLinks := blockerData.blocks.getD [] ++ [fileToWikilink blocked]
    (s1.setFm blocker.path fun r => { r with blocks := some blocksLinks }, .ok)

/-- `RelationshipCommands.removeBlocker`: filter the blocker out of
`blocked`'s `blocked-by` (parse-and-resolve each entry) and the blocked
issue out of `blocker`'s `blocks`; an array that becomes empty is
cleared entirely.  Both arrays are read up front; the second filter runs
after the first write. -/
def removeBlocker (s : Store) (blocked blocker : FileRec) : Store :=
  let blockedData := s.fm blocked.path
  let blockerData := s.fm blocker.path
  let s1 := match blockedData.blockedBy with
    | none => s
    | some arr =>
      let arr2 := arr.filter fun l =>
        decide ((resolveEntry s l).map FileRec.path ≠ some blocker.path)
      s.setFm blocked.path fun r =>
        { r with blockedBy := if arr2.length > 0 then some arr2 else none }
  match blockerData.blocks with
  | none => s1
  | some arr =>
    let arr2 := arr.filter fun l =>
      decide ((resolveEntry s1 l).map FileRec.path ≠ some blocked.path)
    s1.setFm blocker.path fun r =>
      { r with blocks := if arr2.length > 0 then some arr2 else none }

/-- `RelationshipCommands.addRelated`: symmetric `related` links with the
same duplicate check as `addBlocker`. -/
def addRelated (s : Store) (issue1 issue2 : FileRec) : Store × MutResult :=
  let data1 := s.fm issue1.path
  let data2 := s.fm issue2.path
  let dup := match data1.related with
    | some arr => (resolveLinks s arr).any fun f => f.path == issue2.path
    | none => false
  if dup then (s, .alreadyExists)
  else
    let related1 := data1.related.getD [] ++ [fileToWikilink issue2]
    let s1 := s.setFm issue1.path fun r => { r with related := some related1 }
    let related2 := data2.related.getD [] ++ [fileToWikilink issue1]
    (s1.setFm issue2.path fun r => { r with related := some related2 }, .ok)

/-- The scan at its canonical fuel (the input length). -/
def scanL (cs : List Char) : List String := scanAux cs.length cs

/-- Spec rendering of one reference: `[[Name]]` or `[[Name|Alias]]`. -/
def renderLink (nm : String) (al : Option String) : String :=
  "[[" ++ nm ++ (match al with | none => "" | some a => "|" ++ a) ++ "]]"

/-- A document: junk text interleaved with rendered references, then a
trailing junk segment. -/
def renderDoc : List (String × String × Option String) → String → String
  | [], tail => tail
  | (junk, nm, al) :: rest, tail => junk ++ (renderLink nm al ++ renderDoc rest tail)

/-- A reference payload the bracketed-name grammar accepts: nonempty, no
`]` and no `|`. -/
def goodName (nm : String) : Prop :=
  nm.data ≠ [] ∧ ∀ c ∈ nm.data, ¬(c = ']' ∨ c = '|')

/-- A display-alias segment the grammar accepts: absent, or nonempty
without `]`. -/
def goodAlias : Option String → Prop
  | none => True
  | some a => a.data ≠ [] ∧ ∀ c ∈ a.data, c ≠ ']'

/-- Junk text that starts no reference: no `[` at all. -/
def goodJunk (j : String) : Prop := ∀ c ∈ j.data, c ≠ '['

instance : DecidablePred goodName := fun nm => by unfold goodName; infer_instance

instance : DecidablePred goodAlias := fun al => by cases al <;> unfold goodAlias <;> infer_instance

instance : DecidablePred goodJunk := fun j => by unfold goodJunk; infer_instance

/-- A display name the reference machinery round-trips: parseable as a
payload (`goodName`), stable under trimming, and not itself starting
with `[[`. -/
def cleanName (b : String) : Prop :=
  goodName b ∧ trimChars b.data = b.data ∧ ∀ rest, b.data ≠ '[' :: '[' :: rest

instance : DecidablePred cleanName := fun b => by
  unfold cleanName
  have : Decidable (∀ rest, b.data ≠ '[' :: '[' :: rest) :=
    match hb : b.data with
    | '[' :: '[' :: r => .isFalse (by intro h; exact h r rfl)
    | [] => .isTrue (by intro rest h; cases h)
    | [c] => .isTrue (by intro rest h; cases h)
    | c1 :: c2 :: r =>
      if hc : c1 = '[' ∧ c2 = '[' then
        .isFalse (by rw [hc.1, hc.2]; intro h; exact h r rfl)
      else .isTrue (by
        intro rest h
        rw [List.cons.injEq, List.cons.injEq] at h
        exact hc ⟨h.1, h.2.1⟩)
  infer_instance

/-- The sequence of parent paths the cycle walk steps through, mirroring
`detectCycleRecursive`'s recursion (same guards, same visited set), but
independent of the search target. -/
def walkChainAux (s : Store) : Nat → FileRec → List String → List String
  | 0, _, _ => []
  | fuel + 1, current, visited =>
    if current.path ∈ visited then []
    else
      match (s.fm current.path).parent with
      | none => []
      | some parentLink =>
        match (parseWikilinksStr parentLink).head? with
        | none => []
        | some parentText =>
          match resolveLink s parentText with
          | none => []
          | some parentFile =>
            parentFile.path :: walkChainAux s fuel parentFile (current.path :: visited)

/-- The ancestor chain of `a`: every parent path the walk visits when
started at `a` with an empty visited set. -/
def ancestorChain (s : Store) (a : FileRec) : List String :=
  walkChainAux s (cycleFuel s) a []

/-- The number of entities the cycle walk marks as visited, mirroring
`detectCycleRecursive`'s recursion (including its early stop when the
target is found). -/
def cycleWalkCountAux (s : Store) (target : String) : Nat → FileRec → List String → Nat
  | 0, _, _ => 0
  | fuel + 1, current, visited =>
    if current.path ∈ visited then 0
    else
      match (s.fm current.path).parent with
      | none => 1
      | some parentLink =>
        match (parseWikilinksStr parentLink).head? with
        | none => 1
        | some parentText =>
          match resolveLink s parentText with
          | none => 1
          | some parentFile =>
            if parentFile.path = target then 1
            else 1 + cycleWalkCountAux s target fuel parentFile (current.path :: visited)

/-- Entities the walk started at `cycleWalkCountAux`'s visited set may
still mark. -/
def unvisitedCount (s : Store) (visited : List String) : Nat :=
  (s.files.filter fun f => decide (f.path ∉ visited)).length

/-- Fuel that lets the walk run to one of its four stopping conditions. -/
def cycleNeed (s : Store) (current : FileRec) (visited : List String) : Nat :=
  unvisitedCount s visited +
    (if current.path ∈ visited then 0
     else if s.files.any fun f => f.path == current.path then 1 else 2)

/-- `RelationshipCommands.removeRelated`: filter each side's `related`
array symmetrically; an array that becomes empty is cleared. -/
def removeRelated (s : Store) (issue1 issue2 : FileRec) : Store :=
  let data1 := s.fm issue1.path
  let data2 := s.fm issue2.path
  let s1 := match data1.related with
    | none => s
    | some arr =>
      let arr2 := arr.filter fun l =>
        decide ((resolveEntry s l).map FileRec.path ≠ some issue2.path)
      s.setFm issue1.path fun r =>
        { r with related := if arr2.length > 0 then some arr2 else none }
  match data2.related with
  | none => s1
  | some arr =>
    let arr2 := arr.filter fun l =>
      decide ((resolveEntry s1 l).map FileRec.path ≠ some issue1.path)
    s1.setFm issue2.path fun r =>
      { r with related := if arr2.length > 0 then some arr2 else none }

def cexE : FileRec := ⟨"e", "E"⟩

def cexQ : FileRec := ⟨"q", "Q"⟩

def cexP : FileRec := ⟨"p", "P"⟩

/-- E has parent Q (and Q lists E); the proposed new parent P has parent
E, so `setParent(E, P)` is rejected as a cycle. -/
def cexStore : Store :=
  { files := [cexE, cexQ, cexP]
    fm := fun p =>
      if p = "e" then { parent := some "[[Q]]" }
      else if p = "q" then { subIssues := some ["[[E]]"] }
      else if p = "p" then { parent := some "[[E]]" }
      else {} }

def aliasX : FileRec := ⟨"x", "X"⟩

def aliasY : FileRec := ⟨"y", "Y"⟩

/-- X's blocked-by holds an alias-form reference to Y. -/
def aliasStore : Store :=
  { files := [aliasX, aliasY]
    fm := fun p => if p = "x" then { blockedBy := some ["[[Y|see]]"] } else {} }

def chainA : FileRec := ⟨"a", "A"⟩

def chainB : FileRec := ⟨"b", "B"⟩

def chainC : FileRec := ⟨"c", "C"⟩

def chainD : FileRec := ⟨"d", "D"⟩

/-- A chain A → parent B → parent C, plus an unrelated D. -/
def chainStore : Store :=
  { files := [chainA, chainB, chainC, chainD]
    fm := fun p =>
      if p = "a" then { parent := some "[[B]]" }
      else if p = "b" then { parent := some "[[C]]" }
      else {} }

def dangIssue : FileRec := ⟨"i20", "I20"⟩

/-- ISSUE-20's parent references a deleted entity. -/
def dangStore : Store :=
  { files := [dangIssue]
    fm := fun p => if p = "i20" then { parent := some "[[GONE]]" } else {} }

def mirX : FileRec := ⟨"x10", "I10"⟩

def mirY : FileRec := ⟨"x11", "I11"⟩

/-- Two issues with no existing relationships. -/
def mirStore : Store := { files := [mirX, mirY], fm := fun _ => {} }

def dupX : FileRec := ⟨"x", "X"⟩

def dupY : FileRec := ⟨"y", "Y"⟩

/-- X already lists Y in both blocked-by and related. -/
def dupStore : Store :=
  { files := [dupX, dupY]
    fm := fun p =>
      if p = "x" then { blockedBy := some ["[[Y]]"], related := some ["[[Y]]"] } else {} }

def reE : FileRec := ⟨"e", "E"⟩

def reQ : FileRec := ⟨"q", "Q"⟩

def reN : FileRec := ⟨"n", "N"⟩

/-- E currently under parent Q; N is a legal new parent. -/
def reStore : Store :=
  { files := [reE, reQ, reN]
    fm := fun p =>
      if p = "e" then { parent := some "[[Q]]" }
      else if p = "q" then { subIssues := some ["[[E]]"] }
      else {} }

def remX : FileRec := ⟨"x", "X"⟩

def remY : FileRec := ⟨"y", "Y"⟩

def remZ : FileRec := ⟨"z", "Z"⟩

/-- X's blocked-by holds two entries resolving to Y (one alias-form) and
one resolving to Z. -/
def remStore : Store :=
  { files := [remX, remY, remZ]
    fm := fun p =>
      if p = "x" then { blockedBy := some ["[[Y]]", "[[Z]]", "[[Y|a]]"] } else {} }

/-- The hypothesis shape "the parent field of `a` parses and resolves to
`b`" used to state chain facts. -/
def parentResolvesTo (s : Store) (a b : FileRec) : Prop :=
  ∃ link, (s.fm a.path).parent = some link ∧
    ∃ t, (parseWikilinksStr link).head? = some t ∧ resolveLink s t = some b

/-! ### Proofs -/

theorem Store.setFm_files (s : Store) (p : String) (f : Frontmatter → Frontmatter) :
    (s.setFm p f).files = s.files := rfl

theorem Store.setFm_fm_self (s : Store) (p : String) (f : Frontmatter → Frontmatter) :
    (s.setFm p f).fm p = f (s.fm p) := by
  simp [Store.setFm]

theorem Store.setFm_fm_ne (s : Store) (p : String) (f : Frontmatter → Frontmatter)
    (q : String) (h : q ≠ p) : (s.setFm p f).fm q = s.fm q := by
  simp [Store.setFm, h]

theorem resolveLink_congr_files {s t : Store} (h : s.files = t.files)
    (l : String) : resolveLink s l = resolveLink t l := by
  simp [resolveLink, findByName, h]

theorem resolveEntry_congr_files {s t : Store} (h : s.files = t.files)
    (l : String) : resolveEntry s l = resolveEntry t l := by
  unfold resolveEntry
  cases (parseWikilinksStr l).head? with
  | none => rfl
  | some x => exact resolveLink_congr_files h x

theorem takeWhile_append_pos {α} {p : α → Bool} (xs ys : List α)
    (h : ∀ x ∈ xs, p x = true) :
    (xs ++ ys).takeWhile p = xs ++ ys.takeWhile p := by
  induction xs with
  | nil => simp
  | cons a t ih =>
    have ha : p a = true := h a (by simp)
    simp only [List.cons_append, List.takeWhile_cons, ha, if_true]
    rw [ih fun x hx => h x (by simp [hx])]

theorem dropWhile_append_pos {α} {p : α → Bool} (xs ys : List α)
    (h : ∀ x ∈ xs, p x = true) :
    (xs ++ ys).dropWhile p = ys.dropWhile p := by
  induction xs with
  | nil => simp
  | cons a t ih =>
    have ha : p a = true := h a (by simp)
    simp only [List.cons_append, List.dropWhile_cons, ha, if_true]
    exact ih fun x hx => h x (by simp [hx])

theorem length_filter_le_of_imp {α} (l : List α) (p q : α → Bool)
    (h : ∀ x, q x = true → p x = true) :
    (l.filter q).length ≤ (l.filter p).length := by
  induction l with
  | nil => simp
  | cons a t ih =>
    by_cases hq : q a
    · have hp := h a hq
      have h1 : (a :: t).filter p = a :: t.filter p := by simp [List.filter_cons, hp]
      have h2 : (a :: t).filter q = a :: t.filter q := by simp [List.filter_cons, hq]
      rw [h1, h2, List.length_cons, List.length_cons]
      exact Nat.succ_le_succ ih
    · have h2 : (a :: t).filter q = t.filter q := by
        simp [List.filter_cons, Bool.eq_false_iff.mpr hq]
      rw [h2]
      by_cases hp : p a
      · have h1 : (a :: t).filter p = a :: t.filter p := by simp [List.filter_cons, hp]
        rw [h1, List.length_cons]
        exact Nat.le_succ_of_le ih
      · have h1 : (a :: t).filter p = t.filter p := by
          simp [List.filter_cons, Bool.eq_false_iff.mpr hp]
        rw [h1]; exact ih

theorem length_filter_lt_of_imp {α} (l : List α) (p q : α → Bool)
    (h : ∀ x, q x = true → p x = true) (a : α) (ha : a ∈ l)
    (hpa : p a = true) (hqa : q a = false) :
    (l.filter q).length < (l.filter p).length := by
  induction l with
  | nil => cases ha
  | cons b t ih =>
    rcases List.mem_cons.mp ha with hb | hb
    · subst hb
      have h1 : (a :: t).filter p = a :: t.filter p := by simp [List.filter_cons, hpa]
      have h2 : (a :: t).filter q = t.filter q := by simp [List.filter_cons, hqa]
      rw [h1, h2, List.length_cons]
      exact Nat.lt_succ_of_le (length_filter_le_of_imp t p q h)
    · by_cases hqb : q b
      · have hpb := h b hqb
        have h1 : (b :: t).filter p = b :: t.filter p := by simp [List.filter_cons, hpb]
        have h2 : (b :: t).filter q = b :: t.filter q := by simp [List.filter_cons, hqb]
        rw [h1, h2, List.length_cons, List.length_cons]
        exact Nat.succ_lt_succ (ih hb)
      · have h2 : (b :: t).filter q = t.filter q := by
          simp [List.filter_cons, Bool.eq_false_iff.mpr hqb]
        rw [h2]
        by_cases hpb : p b
        · have h1 : (b :: t).filter p = b :: t.filter p := by simp [List.filter_cons, hpb]
          rw [h1, List.length_cons]
          exact Nat.lt_succ_of_lt (ih hb)
        · have h1 : (b :: t).filter p = t.filter p := by
            simp [List.filter_cons, Bool.eq_false_iff.mpr hpb]
          rw [h1]; exact ih hb

theorem scanAux_nil (f : Nat) : scanAux f [] = [] := by
  cases f <;> rfl

theorem scanAux_cons_ne (f : Nat) (c : Char) (cs : List Char) (h : ¬c = '[') :
    scanAux (f + 1) (c :: cs) = scanAux f cs := by
  simp [scanAux, h]

theorem scanAux_two_brackets (f : Nat) (rest : List Char) :
    scanAux (f + 1) ('[' :: '[' :: rest) =
      match matchInner rest with
      | some (nm, rest2) => String.mk (trimChars nm) :: scanAux f rest2
      | none => scanAux f ('[' :: rest) := by
  simp [scanAux]

theorem matchInner_length {cs nm rest2 : List Char}
    (h : matchInner cs = some (nm, rest2)) : rest2.length + 3 ≤ cs.length := by
  unfold matchInner at h
  have hsplit := congrArg List.length
    (List.takeWhile_append_dropWhile (fun c => !(c == ']' || c == '|')) cs)
  rw [List.length_append] at hsplit
  split at h
  · exact absurd h (by simp)
  · rename_i hne
    have hpos : 1 ≤ (cs.takeWhile fun c => !(c == ']' || c == '|')).length := by
      rcases hemp : cs.takeWhile fun c => !(c == ']' || c == '|') with _ | ⟨x, xs⟩
      · rw [hemp] at hne; simp at hne
      · simp
    split at h
    · rename_i rest2' hdrop
      rw [Option.some.injEq, Prod.mk.injEq] at h
      have hd : (cs.dropWhile fun c => !(c == ']' || c == '|')).length
          = rest2'.length + 2 := by rw [hdrop]; simp
      have he : rest2 = rest2' := h.2.symm
      subst he
      omega
    · rename_i restAl hdrop
      have hsplit2 := congrArg List.length
        (List.takeWhile_append_dropWhile (fun c => !(c == ']')) restAl)
      rw [List.length_append] at hsplit2
      split at h
      · exact absurd h (by simp)
      · rename_i halne
        have halpos : 1 ≤ (restAl.takeWhile fun c => !(c == ']')).length := by
          rcases hemp : restAl.takeWhile fun c => !(c == ']') with _ | ⟨x, xs⟩
          · rw [hemp] at halne; simp at halne
          · simp
        split at h
        · rename_i rest2' hdrop2
          rw [Option.some.injEq, Prod.mk.injEq] at h
          have hd2 : (restAl.dropWhile fun c => !(c == ']')).length
              = rest2'.length + 2 := by rw [hdrop2]; simp
          have hd : (cs.dropWhile fun c => !(c == ']' || c == '|')).length
              = restAl.length + 1 := by rw [hdrop]; simp
          have he : rest2 = rest2' := h.2.symm
          subst he
          omega
        · exact absurd h (by simp)
    · exact absurd h (by simp)

theorem scanAux_fuel (f : Nat) : ∀ (g : Nat) (cs : List Char),
    cs.length ≤ f → cs.length ≤ g → scanAux f cs = scanAux g cs := by
  induction f with
  | zero =>
    intro g cs hf _
    have : cs = [] := List.length_eq_zero.mp (Nat.le_zero.mp hf)
    subst this
    rw [scanAux_nil, scanAux_nil]
  | succ f ih =>
    intro g cs hf hg
    match cs, g with
    | [], g => rw [scanAux_nil, scanAux_nil]
    | c :: cs, 0 => simp at hg
    | c :: cs, g + 1 =>
      simp only [List.length_cons, Nat.add_le_add_iff_right] at hf hg
      by_cases hc : c = '['
      · subst hc
        match cs, hf, hg with
        | [], hf, hg =>
          show scanAux (f + 1) ['['] = scanAux (g + 1) ['[']
          have h1 : scanAux (f + 1) ['['] = scanAux f [] := by simp [scanAux]
          have h2 : scanAux (g + 1) ['['] = scanAux g [] := by simp [scanAux]
          rw [h1, h2, scanAux_nil, scanAux_nil]
        | c2 :: cs2, hf, hg =>
          by_cases hc2 : c2 = '['
          · subst hc2
            rw [scanAux_two_brackets, scanAux_two_brackets]
            cases hm : matchInner cs2 with
            | some pr =>
              obtain ⟨nm, rest2⟩ := pr
              have hlen := matchInner_length hm
              simp only [List.length_cons] at hf hg
              have : rest2.length ≤ f := by omega
              have : rest2.length ≤ g := by omega
              simp only []
              rw [ih g rest2 (by omega) (by omega)]
            | none =>
              simp only []
              exact ih g ('[' :: cs2) (by simpa using hf) (by simpa using hg)
          · have h1 : scanAux (f + 1) ('[' :: c2 :: cs2) = scanAux f (c2 :: cs2) := by
              simp [scanAux, hc2]
            have h2 : scanAux (g + 1) ('[' :: c2 :: cs2) = scanAux g (c2 :: cs2) := by
              simp [scanAux, hc2]
            rw [h1, h2]
            exact ih g (c2 :: cs2) hf hg
      · rw [scanAux_cons_ne f c cs hc, scanAux_cons_ne g c cs hc]
        exact ih g cs hf hg

theorem parseWikilinksStr_eq (s : String) : parseWikilinksStr s = scanL s.data := by
  unfold parseWikilinksStr scanL
  by_cases h : s = ""
  · subst h; rfl
  · rw [if_neg h]

theorem scanL_append_junk (junk : List Char) (cs : List Char)
    (h : ∀ c ∈ junk, c ≠ '[') : scanL (junk ++ cs) = scanL cs := by
  induction junk with
  | nil => rfl
  | cons c j ih =>
    have hc : ¬c = '[' := h c (by simp)
    have step : scanL ((c :: j) ++ cs) = scanAux ((j ++ cs).length) (j ++ cs) := by
      show scanAux ((j ++ cs).length + 1) (c :: (j ++ cs)) = _
      exact scanAux_cons_ne _ c _ hc
    rw [step]
    exact ih fun x hx => h x (by simp [hx])

theorem scanL_link {inner : List Char} {nm rest : List Char}
    (hm : matchInner inner = some (nm, rest)) :
    scanL ('[' :: '[' :: inner) = String.mk (trimChars nm) :: scanL rest := by
  have hlen := matchInner_length hm
  show scanAux (inner.length + 2) ('[' :: '[' :: inner) = _
  rw [show inner.length + 2 = (inner.length + 1) + 1 from rfl, scanAux_two_brackets, hm]
  simp only []
  rw [scanAux_fuel (inner.length + 1) rest.length rest (by omega) (by omega)]
  rfl

theorem matchInner_render_noalias (nmL rest : List Char) (h1 : nmL ≠ [])
    (h2 : ∀ c ∈ nmL, ¬(c = ']' ∨ c = '|')) :
    matchInner (nmL ++ ']' :: ']' :: rest) = some (nmL, rest) := by
  have hP : ∀ c ∈ nmL, (fun c => !(c == ']' || c == '|')) c = true := by
    intro c hc
    have := h2 c hc
    simp only [Bool.not_eq_true', Bool.or_eq_false_iff, beq_eq_false_iff_ne]
    exact ⟨fun h => this (Or.inl h), fun h => this (Or.inr h)⟩
  have htake : ((nmL ++ ']' :: ']' :: rest).takeWhile fun c => !(c == ']' || c == '|'))
      = nmL := by
    rw [takeWhile_append_pos nmL _ hP]
    simp [List.takeWhile_cons]
  have hdrop : ((nmL ++ ']' :: ']' :: rest).dropWhile fun c => !(c == ']' || c == '|'))
      = ']' :: ']' :: rest := by
    rw [dropWhile_append_pos nmL _ hP]
    simp [List.dropWhile_cons]
  unfold matchInner
  rw [htake, hdrop, if_neg (by simpa using h1)]
  rfl

theorem matchInner_render_alias (nmL aL rest : List Char) (h1 : nmL ≠ [])
    (h2 : ∀ c ∈ nmL, ¬(c = ']' ∨ c = '|')) (h3 : aL ≠ []) (h4 : ∀ c ∈ aL, c ≠ ']') :
    matchInner (nmL ++ '|' :: (aL ++ ']' :: ']' :: rest)) = some (nmL, rest) := by
  have hP : ∀ c ∈ nmL, (fun c => !(c == ']' || c == '|')) c = true := by
    intro c hc
    have := h2 c hc
    simp only [Bool.not_eq_true', Bool.or_eq_false_iff, beq_eq_false_iff_ne]
    exact ⟨fun h => this (Or.inl h), fun h => this (Or.inr h)⟩
  have hQ : ∀ c ∈ aL, (fun c => !(c == ']')) c = true := by
    intro c hc
    simpa using h4 c hc
  have htake : ((nmL ++ '|' :: (aL ++ ']' :: ']' :: rest)).takeWhile
      fun c => !(c == ']' || c == '|')) = nmL := by
    rw [takeWhile_append_pos nmL _ hP]
    simp [List.takeWhile_cons]
  have hdrop : ((nmL ++ '|' :: (aL ++ ']' :: ']' :: rest)).dropWhile
      fun c => !(c == ']' || c == '|')) = '|' :: (aL ++ ']' :: ']' :: rest) := by
    rw [dropWhile_append_pos nmL _ hP]
    simp [List.dropWhile_cons]
  have htake2 : ((aL ++ ']' :: ']' :: rest).takeWhile fun c => !(c == ']')) = aL := by
    rw [takeWhile_append_pos aL _ hQ]
    simp [List.takeWhile_cons]
  have hdrop2 : ((aL ++ ']' :: ']' :: rest).dropWhile fun c => !(c == ']'))
      = ']' :: ']' :: rest := by
    rw [dropWhile_append_pos aL _ hQ]
    simp [List.dropWhile_cons]
  unfold matchInner
  rw [htake, hdrop, if_neg (by simpa using h1)]
  simp only []
  rw [htake2, hdrop2, if_neg (by simpa using h3)]
  rfl

theorem renderLink_scan (nm : String) (al : Option String) (docRest : List Char)
    (hnm : goodName nm) (hal : goodAlias al) :
    scanL ((renderLink nm al).data ++ docRest)
      = String.mk (trimChars nm.data) :: scanL docRest := by
  cases al with
  | none =>
    have hdata : (renderLink nm none).data ++ docRest
        = '[' :: '[' :: (nm.data ++ ']' :: ']' :: docRest) := by
      unfold renderLink
      rw [String.data_append, String.data_append, String.data_append]
      simp
    rw [hdata]
    exact scanL_link (matchInner_render_noalias nm.data docRest hnm.1 hnm.2)
  | some a =>
    have hdata : (renderLink nm (some a)).data ++ docRest
        = '[' :: '[' :: (nm.data ++ '|' :: (a.data ++ ']' :: ']' :: docRest)) := by
      unfold renderLink
      rw [String.data_append, String.data_append, String.data_append]
      simp [String.data_append]
    rw [hdata]
    exact scanL_link
      (matchInner_render_alias nm.data a.data docRest hnm.1 hnm.2 hal.1 hal.2)

theorem parse_renderDoc (segs : List (String × String × Option String)) (tail : String)
    (hsegs : ∀ seg ∈ segs, goodJunk seg.1 ∧ goodName seg.2.1 ∧ goodAlias seg.2.2)
    (htail : goodJunk tail) :
    parseWikilinksStr (renderDoc segs tail) =
      segs.map fun seg => String.mk (trimChars seg.2.1.data) := by
  induction segs with
  | nil =>
    rw [parseWikilinksStr_eq]
    show scanL tail.data = []
    have h := scanL_append_junk tail.data [] htail
    rw [List.append_nil] at h
    rw [h]
    rfl
  | cons seg rest ih =>
    obtain ⟨junk, nm, al⟩ := seg
    obtain ⟨hjunk, hnm, hal⟩ := hsegs _ (List.mem_cons_self _ _)
    rw [parseWikilinksStr_eq]
    show scanL (renderDoc ((junk, nm, al) :: rest) tail).data = _
    unfold renderDoc
    rw [String.data_append, String.data_append]
    rw [scanL_append_junk junk.data _ hjunk]
    rw [renderLink_scan nm al (renderDoc rest tail).data hnm hal]
    rw [← parseWikilinksStr_eq]
    rw [ih fun seg hs => hsegs seg (by simp [hs])]
    rfl

theorem stripLeadBrackets_eq {cs : List Char} (h : ∀ rest, cs ≠ '[' :: '[' :: rest) :
    stripLeadBrackets cs = cs := by
  unfold stripLeadBrackets
  split
  · rename_i rest
    exact absurd rfl (h rest)
  · rfl

theorem stripTrailBrackets_eq {cs : List Char} (h : ∀ c ∈ cs, c ≠ ']') :
    stripTrailBrackets cs = cs := by
  unfold stripTrailBrackets
  split
  · rename_i rest heq
    have hmem : ']' ∈ cs.reverse := by rw [heq]; simp
    exact absurd rfl (h ']' (List.mem_reverse.mp hmem))
  · rfl

theorem string_mk_data (b : String) : String.mk b.data = b := by
  cases b
  rfl

theorem data_fileToWikilink (Y : FileRec) :
    (fileToWikilink Y).data = '[' :: '[' :: (Y.basename.data ++ ']' :: ']' :: []) := by
  unfold fileToWikilink
  rw [String.data_append, String.data_append]
  simp

theorem parse_fileToWikilink (Y : FileRec) (h : cleanName Y.basename) :
    parseWikilinksStr (fileToWikilink Y) = [Y.basename] := by
  rw [parseWikilinksStr_eq, data_fileToWikilink]
  rw [scanL_link (matchInner_render_noalias Y.basename.data [] h.1.1 h.1.2)]
  rw [h.2.1, string_mk_data]
  rfl

theorem cleanLinkText_eq_self {b : String} (h : cleanName b) : cleanLinkText b = b := by
  unfold cleanLinkText
  rw [stripLeadBrackets_eq h.2.2,
    stripTrailBrackets_eq (fun c hc hcc => h.1.2 c hc (Or.inl hcc)),
    h.2.1, string_mk_data]

theorem cleanLinkText_fileToWikilink (Y : FileRec) (h : cleanName Y.basename) :
    cleanLinkText (fileToWikilink Y) = Y.basename := by
  unfold cleanLinkText
  rw [data_fileToWikilink]
  rw [show stripLeadBrackets ('[' :: '[' :: (Y.basename.data ++ ']' :: ']' :: []))
    = Y.basename.data ++ ']' :: ']' :: [] from rfl]
  have htrail : stripTrailBrackets (Y.basename.data ++ ']' :: ']' :: [])
      = Y.basename.data := by
    unfold stripTrailBrackets
    rw [List.reverse_append]
    simp
  rw [htrail, h.2.1, string_mk_data]

theorem resolveLink_eq_findByName {s : Store} {b : String} (h : cleanName b) :
    resolveLink s b = findByName s b := by
  unfold resolveLink
  rw [if_neg (by
    intro hb
    apply h.1.1
    rw [hb])]
  rw [cleanLinkText_eq_self h]

theorem resolveLink_fileToWikilink (s : Store) (Y : FileRec)
    (h : cleanName Y.basename) :
    resolveLink s (fileToWikilink Y) = resolveLink s Y.basename := by
  rw [resolveLink_eq_findByName h]
  unfold resolveLink
  rw [if_neg (by
    intro hb
    have := congrArg String.data hb
    rw [data_fileToWikilink] at this
    cases this)]
  rw [cleanLinkText_fileToWikilink Y h]

theorem resolveEntry_fileToWikilink (s : Store) (Y : FileRec)
    (h : cleanName Y.basename) :
    resolveEntry s (fileToWikilink Y) = resolveLink s Y.basename := by
  unfold resolveEntry
  rw [parse_fileToWikilink Y h]
  rfl

theorem getD_if_length (xs : List String) :
    (if xs.length > 0 then some xs else none).getD [] = xs := by
  by_cases h : xs.length > 0
  · simp [h]
  · have hnil : xs = [] := List.length_eq_zero.mp (by omega)
    simp [hnil]

theorem detectCycleAux_visited (s : Store) (target : String) (f : Nat)
    (current : FileRec) (visited : List String) (h : current.path ∈ visited) :
    detectCycleAux s target f current visited = false := by
  cases f with
  | zero => rfl
  | succ f => simp [detectCycleAux, h]

theorem resolveLink_mem_files {s : Store} {t : String} {f : FileRec}
    (h : resolveLink s t = some f) : f ∈ s.files := by
  unfold resolveLink at h
  split at h
  · cases h
  · exact List.mem_of_find?_eq_some h

theorem unvisitedCount_cons_le (s : Store) (p : String) (visited : List String) :
    unvisitedCount s (p :: visited) ≤ unvisitedCount s visited := by
  apply length_filter_le_of_imp
  intro f hf
  simp only [decide_eq_true_eq] at hf ⊢
  intro hmem
  exact hf (List.mem_cons_of_mem _ hmem)

theorem unvisitedCount_cons_lt {s : Store} {current : FileRec} {visited : List String}
    (hin : s.files.any fun f => f.path == current.path)
    (hnv : current.path ∉ visited) :
    unvisitedCount s (current.path :: visited) < unvisitedCount s visited := by
  rcases List.any_eq_true.mp hin with ⟨f, hf, hfp⟩
  rw [beq_iff_eq] at hfp
  apply length_filter_lt_of_imp _ _ _ _ f hf
  · simp [hfp, hnv]
  · simp [hfp]
  · intro x hx
    simp only [decide_eq_true_eq] at hx ⊢
    intro hmem
    exact hx (List.mem_cons_of_mem _ hmem)

theorem unvisitedCount_cons_eq {s : Store} {current : FileRec} {visited : List String}
    (hout : ¬(s.files.any fun f => f.path == current.path)) :
    unvisitedCount s (current.path :: visited) = unvisitedCount s visited := by
  unfold unvisitedCount
  congr 1
  apply List.filter_congr
  intro f hf
  have : ¬(f.path = current.path) := by
    intro hc
    exact hout (List.any_eq_true.mpr ⟨f, hf, beq_iff_eq.mpr hc⟩)
  simp [List.mem_cons, this]

theorem cycleNeed_step {s : Store} {current parentFile : FileRec}
    {visited : List String} (hnv : current.path ∉ visited)
    (hpf : parentFile ∈ s.files) :
    cycleNeed s parentFile (current.path :: visited) + 1 ≤
      cycleNeed s current visited := by
  have hIn : (s.files.any fun f => f.path == parentFile.path) = true :=
    List.any_eq_true.mpr ⟨parentFile, hpf, beq_iff_eq.mpr rfl⟩
  unfold cycleNeed
  by_cases hcur : s.files.any fun f => f.path == current.path
  · have hlt := unvisitedCount_cons_lt hcur hnv
    have h1 : (if current.path ∈ visited then 0
        else if s.files.any fun f => f.path == current.path then 1 else 2) = 1 := by
      simp [hnv, hcur]
    rw [h1]
    by_cases hv2 : parentFile.path ∈ current.path :: visited
    · simp only [hv2, if_pos]
      omega
    · have h2 : (if parentFile.path ∈ current.path :: visited then 0
          else if s.files.any fun f => f.path == parentFile.path then 1 else 2) = 1 := by
        simp [hv2, hIn]
      rw [h2]
      omega
  · have heq := @unvisitedCount_cons_eq s current visited hcur
    have h1 : (if current.path ∈ visited then 0
        else if s.files.any fun f => f.path == current.path then 1 else 2) = 2 := by
      simp [hnv, hcur]
    rw [h1, heq]
    by_cases hv2 : parentFile.path ∈ current.path :: visited
    · simp only [hv2, if_pos]
      omega
    · have h2 : (if parentFile.path ∈ current.path :: visited then 0
          else if s.files.any fun f => f.path == parentFile.path then 1 else 2) = 1 := by
        simp [hv2, hIn]
      rw [h2]

/-- Fuel stability: any two fuels at least `cycleNeed` give the walk the
same answer — the walk always reaches one of its stopping conditions
within `cycleNeed` steps, which is the termination claim for the
unbounded source recursion. -/
theorem detectCycleAux_fuel (s : Store) (target : String) :
    ∀ (f g : Nat) (current : FileRec) (visited : List String),
      cycleNeed s current visited ≤ f → cycleNeed s current visited ≤ g →
      detectCycleAux s target f current visited
        = detectCycleAux s target g current visited := by
  intro f
  induction f with
  | zero =>
    intro g current visited hf hg
    have hv : current.path ∈ visited := by
      by_contra hnv
      unfold cycleNeed at hf
      rw [if_neg hnv] at hf
      by_cases hc : s.files.any fun f => f.path == current.path <;>
        simp [hc] at hf
    rw [detectCycleAux_visited _ _ _ _ _ hv, detectCycleAux_visited _ _ _ _ _ hv]
  | succ f ih =>
    intro g current visited hf hg
    by_cases hv : current.path ∈ visited
    · rw [detectCycleAux_visited _ _ _ _ _ hv, detectCycleAux_visited _ _ _ _ _ hv]
    · cases g with
      | zero =>
        exfalso
        unfold cycleNeed at hg
        rw [if_neg hv] at hg
        by_cases hc : s.files.any fun f => f.path == current.path <;>
          simp [hc] at hg
      | succ g =>
        show detectCycleAux s target (f + 1) current visited
          = detectCycleAux s target (g + 1) current visited
        unfold detectCycleAux
        rw [if_neg hv, if_neg hv]
        cases hpar : (s.fm current.path).parent with
        | none => rfl
        | some parentLink =>
          simp only []
          cases hhead : (parseWikilinksStr parentLink).head? with
          | none => rfl
          | some parentText =>
            simp only []
            cases hres : resolveLink s parentText with
            | none => rfl
            | some parentFile =>
              simp only []
              by_cases hTgt : parentFile.path = target
              · rw [if_pos hTgt, if_pos hTgt]
              · rw [if_neg hTgt, if_neg hTgt]
                have hstep := cycleNeed_step hv (resolveLink_mem_files hres)
                exact ih g parentFile (current.path :: visited)
                  (by omega) (by omega)

/-- The walk finds `target` exactly when `target` occurs on the chain it
steps through. -/
theorem detectCycleAux_iff_mem_walkChain (s : Store) (target : String) :
    ∀ (f : Nat) (current : FileRec) (visited : List String),
      detectCycleAux s target f current visited = true
        ↔ target ∈ walkChainAux s f current visited := by
  intro f
  induction f with
  | zero => intro current visited; simp [detectCycleAux, walkChainAux]
  | succ f ih =>
    intro current visited
    unfold detectCycleAux walkChainAux
    by_cases hv : current.path ∈ visited
    · simp [hv]
    · rw [if_neg hv, if_neg hv]
      cases hpar : (s.fm current.path).parent with
      | none => simp
      | some parentLink =>
        simp only []
        cases hhead : (parseWikilinksStr parentLink).head? with
        | none => simp
        | some parentText =>
          simp only []
          cases hres : resolveLink s parentText with
          | none => simp
          | some parentFile =>
            simp only []
            by_cases hTgt : parentFile.path = target
            · simp [hTgt]
            · rw [if_neg hTgt, ih parentFile (current.path :: visited)]
              simp only [List.mem_cons]
              constructor
              · exact Or.inr
              · rintro (hcc | hcc)
                · exact absurd hcc.symm hTgt
                · exact hcc

/-- The walk marks at most `unvisitedCount` entities, provided it starts
at a stored file. -/
theorem cycleWalkCountAux_le (s : Store) (target : String) :
    ∀ (f : Nat) (current : FileRec) (visited : List String),
      current ∈ s.files →
      cycleWalkCountAux s target f current visited ≤ unvisitedCount s visited := by
  intro f
  induction f with
  | zero => intro current visited _; exact Nat.zero_le _
  | succ f ih =>
    intro current visited hcur
    unfold cycleWalkCountAux
    by_cases hv : current.path ∈ visited
    · simp [hv]
    · rw [if_neg hv]
      have hone : 1 ≤ unvisitedCount s visited := by
        have hmem : current ∈ s.files.filter fun f => decide (f.path ∉ visited) :=
          List.mem_filter.mpr ⟨hcur, by simpa using hv⟩
        have hpos := List.length_pos.mpr (List.ne_nil_of_mem hmem)
        unfold unvisitedCount
        omega
      cases hpar : (s.fm current.path).parent with
      | none => exact hone
      | some parentLink =>
        simp only []
        cases hhead : (parseWikilinksStr parentLink).head? with
        | none => exact hone
        | some parentText =>
          simp only []
          cases hres : resolveLink s parentText with
          | none => exact hone
          | some parentFile =>
            simp only []
            by_cases hTgt : parentFile.path = target
            · rw [if_pos hTgt]; exact hone
            · rw [if_neg hTgt]
              have hrec := ih parentFile (current.path :: visited)
                (resolveLink_mem_files hres)
              have hin : (s.files.any fun f => f.path == current.path) = true :=
                List.any_eq_true.mpr ⟨current, hcur, beq_iff_eq.mpr rfl⟩
              have hlt := unvisitedCount_cons_lt hin hv
              omega

theorem filter_resolveEntry_congr {s t : Store} (h : s.files = t.files)
    (arr : List String) (target : String) :
    (arr.filter fun l => decide ((resolveEntry s l).map FileRec.path ≠ some target))
      = arr.filter fun l => decide ((resolveEntry t l).map FileRec.path ≠ some target) := by
  apply List.filter_congr
  intro l _
  rw [resolveEntry_congr_files h l]

theorem removeFromSubIssues_files (s : Store) (P C : FileRec) :
    (removeFromSubIssues s P C).files = s.files := by
  unfold removeFromSubIssues
  split <;> rfl

theorem addToSubIssues_files (s : Store) (P C : FileRec) :
    (addToSubIssues s P C).files = s.files := by
  unfold addToSubIssues
  dsimp only
  split <;> rfl

theorem setParentDetach_files (s : Store) (E : FileRec) :
    (setParentDetach s E).files = s.files := by
  unfold setParentDetach
  split
  · exact removeFromSubIssues_files ..
  · rfl

theorem setParent_files (s : Store) (E : FileRec) (oP : Option FileRec) :
    (setParent s E oP).1.files = s.files := by
  unfold setParent
  cases oP with
  | none =>
    show ((setParentDetach s E).setFm E.path _).files = s.files
    rw [Store.setFm_files, setParentDetach_files]
  | some p =>
    by_cases hv : validateRelationship (setParentDetach s E) .parent E p
    · simp only [hv, if_true]
      rw [addToSubIssues_files, Store.setFm_files, setParentDetach_files]
    · simp only [hv, if_false]
      exact setParentDetach_files s E

theorem addBlocker_files (s : Store) (X Y : FileRec) :
    (addBlocker s X Y).1.files = s.files := by
  unfold addBlocker
  dsimp only
  split <;> rfl

theorem addRelated_files (s : Store) (X Y : FileRec) :
    (addRelated s X Y).1.files = s.files := by
  unfold addRelated
  dsimp only
  split <;> rfl

theorem removeBlocker_files (s : Store) (X Y : FileRec) :
    (removeBlocker s X Y).files = s.files := by
  unfold removeBlocker
  dsimp only
  split <;> split <;> rfl

theorem removeRelated_files (s : Store) (X Y : FileRec) :
    (removeRelated s X Y).files = s.files := by
  unfold removeRelated
  dsimp only
  split <;> split <;> rfl

theorem removeBlocker_blockedBy (s : Store) (X Y : FileRec) (arr : List String)
    (h : (s.fm X.path).blockedBy = some arr) :
    ((removeBlocker s X Y).fm X.path).blockedBy.getD []
      = arr.filter fun l => decide ((resolveEntry s l).map FileRec.path ≠ some Y.path) := by
  have hpass : ∀ (t : Store) (v : Option (List String)) (q : String),
      ((t.setFm Y.path fun r => { r with blocks := v }).fm q).blockedBy
        = (t.fm q).blockedBy := by
    intro t v q
    by_cases hq : q = Y.path <;> simp [Store.setFm, hq]
  unfold removeBlocker
  dsimp only
  rw [h]
  simp only []
  cases hb : (s.fm Y.path).blocks with
  | none =>
    rw [Store.setFm_fm_self]
    simp [getD_if_length]
  | some arrB =>
    rw [hpass, Store.setFm_fm_self]
    simp [getD_if_length]

theorem removeBlocker_blocks (s : Store) (X Y : FileRec) (arrB : List String)
    (hb : (s.fm Y.path).blocks = some arrB) :
    ((removeBlocker s X Y).fm Y.path).blocks.getD []
      = arrB.filter fun l => decide ((resolveEntry s l).map FileRec.path ≠ some X.path) := by
  unfold removeBlocker
  dsimp only
  rw [hb]
  simp only []
  cases ha : (s.fm X.path).blockedBy with
  | none =>
    rw [Store.setFm_fm_self]
    simp [getD_if_length]
  | some arrA =>
    rw [Store.setFm_fm_self]
    simp only []
    rw [filter_resolveEntry_congr (Store.setFm_files ..), getD_if_length]

theorem removeBlocker_blockedBy_none (s : Store) (X Y : FileRec)
    (h : (s.fm X.path).blockedBy = none) :
    ((removeBlocker s X Y).fm X.path).blockedBy = none := by
  have hpass : ∀ (t : Store) (v : Option (List String)) (q : String),
      ((t.setFm Y.path fun r => { r with blocks := v }).fm q).blockedBy
        = (t.fm q).blockedBy := by
    intro t v q
    by_cases hq : q = Y.path <;> simp [Store.setFm, hq]
  unfold removeBlocker
  dsimp only
  rw [h]
  simp only []
  cases hb : (s.fm Y.path).blocks with
  | none => exact h
  | some arrB => rw [hpass]; exact h

theorem removeBlocker_blocks_none (s : Store) (X Y : FileRec)
    (hb : (s.fm Y.path).blocks = none) :
    ((removeBlocker s X Y).fm Y.path).blocks = none := by
  have hpass : ∀ (t : Store) (v : Option (List String)) (q : String),
      ((t.setFm X.path fun r => { r with blockedBy := v }).fm q).blocks
        = (t.fm q).blocks := by
    intro t v q
    by_cases hq : q = X.path <;> simp [Store.setFm, hq]
  unfold removeBlocker
  dsimp only
  rw [hb]
  simp only []
  cases ha : (s.fm X.path).blockedBy with
  | none => exact hb
  | some arrA => rw [hpass]; exact hb

theorem removeRelated_related1 (s : Store) (X Y : FileRec) (hne : X.path ≠ Y.path)
    (arr : List String) (h : (s.fm X.path).related = some arr) :
    ((removeRelated s X Y).fm X.path).related.getD []
      = arr.filter fun l => decide ((resolveEntry s l).map FileRec.path ≠ some Y.path) := by
  unfold removeRelated
  dsimp only
  rw [h]
  dsimp only
  cases hb : (s.fm Y.path).related with
  | none =>
    rw [Store.setFm_fm_self]
    simp [getD_if_length]
  | some arrB =>
    rw [Store.setFm_fm_ne _ _ _ _ hne, Store.setFm_fm_self]
    simp [getD_if_length]

theorem removeRelated_related2 (s : Store) (X Y : FileRec) (arrB : List String)
    (hb : (s.fm Y.path).related = some arrB) :
    ((removeRelated s X Y).fm Y.path).related.getD []
      = arrB.filter fun l => decide ((resolveEntry s l).map FileRec.path ≠ some X.path) := by
  unfold removeRelated
  dsimp only
  rw [hb]
  dsimp only
  cases ha : (s.fm X.path).related with
  | none =>
    rw [Store.setFm_fm_self]
    simp [getD_if_length]
  | some arrA =>
    rw [Store.setFm_fm_self]
    dsimp only
    rw [filter_resolveEntry_congr (Store.setFm_files ..), getD_if_length]

theorem removeFromSubIssues_subIssues (s : Store) (P C : FileRec) :
    ((removeFromSubIssues s P C).fm P.path).subIssues.getD []
      = ((s.fm P.path).subIssues.getD []).filter
          fun l => decide ((resolveEntry s l).map FileRec.path ≠ some C.path) := by
  unfold removeFromSubIssues
  cases h : (s.fm P.path).subIssues with
  | none => simp [h]
  | some subs =>
    dsimp only
    rw [Store.setFm_fm_self]
    simp [getD_if_length]

theorem removeFromSubIssues_fm_ne (s : Store) (P C : FileRec) (q : String)
    (h : q ≠ P.path) : (removeFromSubIssues s P C).fm q = s.fm q := by
  unfold removeFromSubIssues
  split
  · rfl
  · exact Store.setFm_fm_ne _ _ _ _ h

theorem removeFromSubIssues_fm_parent (s : Store) (P C : FileRec) (q : String) :
    ((removeFromSubIssues s P C).fm q).parent = (s.fm q).parent := by
  unfold removeFromSubIssues
  split
  · rfl
  · by_cases hq : q = P.path <;> simp [Store.setFm, hq]

theorem setParentDetach_none (s : Store) (E : FileRec)
    (h : currentParentOf s E = none) : setParentDetach s E = s := by
  unfold setParentDetach
  rw [h]

theorem setParentDetach_some (s : Store) (E cp : FileRec)
    (h : currentParentOf s E = some cp) :
    setParentDetach s E = removeFromSubIssues s cp E := by
  unfold setParentDetach
  rw [h]

theorem setParentDetach_fm_parent (s : Store) (E : FileRec) (q : String) :
    ((setParentDetach s E).fm q).parent = (s.fm q).parent := by
  unfold setParentDetach
  split
  · exact removeFromSubIssues_fm_parent ..
  · rfl

theorem setParentDetach_fm_ne (s : Store) (E cp : FileRec) (q : String)
    (hcp : currentParentOf s E = some cp) (h : q ≠ cp.path) :
    (setParentDetach s E).fm q = s.fm q := by
  rw [setParentDetach_some s E cp hcp]
  exact removeFromSubIssues_fm_ne _ _ _ _ h

theorem setParent_reject (s : Store) (E P : FileRec)
    (hrej : validateRelationship (setParentDetach s E) .parent E P = false) :
    setParent s E (some P) = (setParentDetach s E, .cycleRejected) := by
  unfold setParent
  dsimp only
  rw [hrej]
  rfl

theorem setParent_ok (s : Store) (E P : FileRec)
    (hok : validateRelationship (setParentDetach s E) .parent E P = true) :
    setParent s E (some P)
      = (addToSubIssues ((setParentDetach s E).setFm E.path fun r =>
          { r with parent := some (fileToWikilink P) }) P E, .ok) := by
  unfold setParent
  dsimp only
  rw [hok]
  rfl

theorem setFm_parent_keeps_subIssues (t : Store) (p : String) (v : Option String)
    (q : String) :
    ((t.setFm p fun r => { r with parent := v }).fm q).subIssues
      = (t.fm q).subIssues := by
  by_cases hq : q = p <;> simp [Store.setFm, hq]

theorem addToSubIssues_fm_ne (s : Store) (P C : FileRec) (q : String)
    (h : q ≠ P.path) : (addToSubIssues s P C).fm q = s.fm q := by
  unfold addToSubIssues
  dsimp only
  split
  · rfl
  · exact Store.setFm_fm_ne _ _ _ _ h

theorem addToSubIssues_present (s : Store) (P C : FileRec)
    (hclean : cleanName C.basename) (hres : resolveLink s C.basename = some C) :
    ∃ f ∈ resolveLinks (addToSubIssues s P C)
        (((addToSubIssues s P C).fm P.path).subIssues.getD []),
      f.path = C.path := by
  unfold addToSubIssues
  dsimp only
  split
  · rename_i hdup
    rcases List.any_eq_true.mp hdup with ⟨f, hfmem, hfp⟩
    exact ⟨f, hfmem, beq_iff_eq.mp hfp⟩
  · rw [Store.setFm_fm_self]
    dsimp only
    refine ⟨C, ?_, rfl⟩
    apply List.mem_filterMap.mpr
    refine ⟨fileToWikilink C, by simp, ?_⟩
    rw [resolveLink_congr_files (Store.setFm_files ..), resolveLink_fileToWikilink s C hclean]
    exact hres

theorem addBlocker_cases (s : Store) (X Y : FileRec) :
    addBlocker s X Y = (s, .alreadyExists) ∨
    ((addBlocker s X Y).2 = .ok ∧
     (addBlocker s X Y).1
       = (s.setFm X.path fun r => { r with blockedBy := some ((s.fm X.path).blockedBy.getD [] ++ [fileToWikilink Y]) }).setFm
           Y.path fun r => { r with blocks := some ((s.fm Y.path).blocks.getD [] ++ [fileToWikilink X]) }) := by
  unfold addBlocker
  dsimp only
  split
  · exact Or.inl rfl
  · exact Or.inr ⟨rfl, rfl⟩

theorem addRelated_cases (s : Store) (X Y : FileRec) :
    addRelated s X Y = (s, .alreadyExists) ∨
    ((addRelated s X Y).2 = .ok ∧
     (addRelated s X Y).1
       = (s.setFm X.path fun r => { r with related := some ((s.fm X.path).related.getD [] ++ [fileToWikilink Y]) }).setFm
           Y.path fun r => { r with related := some ((s.fm Y.path).related.getD [] ++ [fileToWikilink X]) }) := by
  unfold addRelated
  dsimp only
  split
  · exact Or.inl rfl
  · exact Or.inr ⟨rfl, rfl⟩

theorem addBlocker_dup (s : Store) (X Y : FileRec) (arr : List String)
    (h : (s.fm X.path).blockedBy = some arr) (f : FileRec)
    (hf : f ∈ resolveLinks s arr) (hfp : f.path = Y.path) :
    addBlocker s X Y = (s, .alreadyExists) := by
  unfold addBlocker
  dsimp only
  rw [h]
  dsimp only
  have hany : ((resolveLinks s arr).any fun g => g.path == Y.path) = true :=
    List.any_eq_true.mpr ⟨f, hf, beq_iff_eq.mpr hfp⟩
  rw [hany]
  rfl

theorem addRelated_dup (s : Store) (X Y : FileRec) (arr : List String)
    (h : (s.fm X.path).related = some arr) (f : FileRec)
    (hf : f ∈ resolveLinks s arr) (hfp : f.path = Y.path) :
    addRelated s X Y = (s, .alreadyExists) := by
  unfold addRelated
  dsimp only
  rw [h]
  dsimp only
  have hany : ((resolveLinks s arr).any fun g => g.path == Y.path) = true :=
    List.any_eq_true.mpr ⟨f, hf, beq_iff_eq.mpr hfp⟩
  rw [hany]
  rfl

theorem addBlocker_alreadyExists_iff (s : Store) (X Y : FileRec) :
    (addBlocker s X Y).2 = .alreadyExists ↔
      ∃ arr, (s.fm X.path).blockedBy = some arr
        ∧ ∃ f ∈ resolveLinks s arr, f.path = Y.path := by
  unfold addBlocker
  dsimp only
  split
  · rename_i hdup
    constructor
    · intro _
      rcases hbb : (s.fm X.path).blockedBy with _ | arr
      · rw [hbb] at hdup; simp at hdup
      · rw [hbb] at hdup
        dsimp only at hdup
        rcases List.any_eq_true.mp hdup with ⟨f, hf, hfp⟩
        exact ⟨arr, rfl, f, hf, beq_iff_eq.mp hfp⟩
    · intro _; rfl
  · rename_i hdup
    constructor
    · intro h; simp at h
    · rintro ⟨arr, harr, f, hf, hfp⟩
      exact absurd (by rw [harr]; exact List.any_eq_true.mpr ⟨f, hf, beq_iff_eq.mpr hfp⟩) hdup

theorem detectCycleAux_step (s : Store) (target : String) (f : Nat)
    (current : FileRec) (visited : List String)
    (hnv : current.path ∉ visited)
    {link t : String} {pf : FileRec}
    (hl : (s.fm current.path).parent = some link)
    (ht : (parseWikilinksStr link).head? = some t)
    (hr : resolveLink s t = some pf) :
    detectCycleAux s target (f + 1) current visited
      = if pf.path = target then true
        else detectCycleAux s target f pf (current.path :: visited) := by
  conv_lhs => unfold detectCycleAux
  rw [if_neg hnv, hl]
  dsimp only
  rw [ht]
  dsimp only
  rw [hr]

theorem detectCycleAux_stop_noparent (s : Store) (target : String) (f : Nat)
    (current : FileRec) (visited : List String)
    (hnv : current.path ∉ visited)
    (h : (s.fm current.path).parent = none) :
    detectCycleAux s target (f + 1) current visited = false := by
  unfold detectCycleAux
  rw [if_neg hnv, h]

theorem detectCycleAux_stop_noparse (s : Store) (target : String) (f : Nat)
    (current : FileRec) (visited : List String)
    (hnv : current.path ∉ visited) {link : String}
    (hl : (s.fm current.path).parent = some link)
    (hh : (parseWikilinksStr link).head? = none) :
    detectCycleAux s target (f + 1) current visited = false := by
  unfold detectCycleAux
  rw [if_neg hnv, hl]
  dsimp only
  rw [hh]

theorem detectCycleAux_stop_dangling (s : Store) (target : String) (f : Nat)
    (current : FileRec) (visited : List String)
    (hnv : current.path ∉ visited) {link t : String}
    (hl : (s.fm current.path).parent = some link)
    (ht : (parseWikilinksStr link).head? = some t)
    (hr : resolveLink s t = none) :
    detectCycleAux s target (f + 1) current visited = false := by
  unfold detectCycleAux
  rw [if_neg hnv, hl]
  dsimp only
  rw [ht]
  dsimp only
  rw [hr]

theorem cycleNeed_le_cycleFuel (s : Store) (current : FileRec) :
    cycleNeed s current [] ≤ cycleFuel s := by
  unfold cycleNeed cycleFuel unvisitedCount
  have h1 := List.length_filter_le (fun f : FileRec => decide (f.path ∉ ([] : List String)))
    s.files
  have h2 : (if current.path ∈ ([] : List String) then 0
      else if s.files.any fun f => f.path == current.path then 1 else 2) ≤ 2 := by
    split
    · omega
    · split <;> omega
  omega

theorem removeBlocker_blockedBy_opt (s : Store) (X Y : FileRec) (arr : List String)
    (h : (s.fm X.path).blockedBy = some arr) :
    ((removeBlocker s X Y).fm X.path).blockedBy
      = (if (arr.filter fun l =>
              decide ((resolveEntry s l).map FileRec.path ≠ some Y.path)).length > 0
         then some (arr.filter fun l =>
              decide ((resolveEntry s l).map FileRec.path ≠ some Y.path))
         else none) := by
  have hpass : ∀ (t : Store) (v : Option (List String)) (q : String),
      ((t.setFm Y.path fun r => { r with blocks := v }).fm q).blockedBy
        = (t.fm q).blockedBy := by
    intro t v q
    by_cases hq : q = Y.path <;> simp [Store.setFm, hq]
  unfold removeBlocker
  dsimp only
  rw [h]
  simp only []
  cases hb : (s.fm Y.path).blocks with
  | none =>
    rw [Store.setFm_fm_self]
  | some arrB =>
    rw [hpass, Store.setFm_fm_self]

theorem removeBlocker_blocks_opt (s : Store) (X Y : FileRec) (arrB : List String)
    (hb : (s.fm Y.path).blocks = some arrB) :
    ((removeBlocker s X Y).fm Y.path).blocks
      = (if (arrB.filter fun l =>
              decide ((resolveEntry s l).map FileRec.path ≠ some X.path)).length > 0
         then some (arrB.filter fun l =>
              decide ((resolveEntry s l).map FileRec.path ≠ some X.path))
         else none) := by
  unfold removeBlocker
  dsimp only
  rw [hb]
  simp only []
  cases ha : (s.fm X.path).blockedBy with
  | none =>
    rw [Store.setFm_fm_self]
  | some arrA =>
    rw [Store.setFm_fm_self]
    dsimp only
    rw [filter_resolveEntry_congr (Store.setFm_files ..)]

theorem if_length_ne_some_nil (xs : List String) :
    (if xs.length > 0 then some xs else none) ≠ some [] := by
  by_cases h : xs.length > 0
  · rw [if_pos h]
    intro hc
    rw [Option.some.injEq] at hc
    subst hc
    simp at h
  · rw [if_neg h]
    exact Option.noConfusion

theorem removeBlocker_clears_blockedBy (s : Store) (X Y : FileRec) :
    ∀ l ∈ ((removeBlocker s X Y).fm X.path).blockedBy.getD [],
      (resolveEntry (removeBlocker s X Y) l).map FileRec.path ≠ some Y.path := by
  intro l hl
  rw [resolveEntry_congr_files (removeBlocker_files s X Y) l]
  cases ha : (s.fm X.path).blockedBy with
  | none =>
    rw [removeBlocker_blockedBy_none s X Y ha] at hl
    simp at hl
  | some arr =>
    rw [removeBlocker_blockedBy s X Y arr ha] at hl
    have := List.of_mem_filter hl
    simpa using this

theorem removeBlocker_clears_blocks (s : Store) (X Y : FileRec) :
    ∀ l ∈ ((removeBlocker s X Y).fm Y.path).blocks.getD [],
      (resolveEntry (removeBlocker s X Y) l).map FileRec.path ≠ some X.path := by
  intro l hl
  rw [resolveEntry_congr_files (removeBlocker_files s X Y) l]
  cases hb : (s.fm Y.path).blocks with
  | none =>
    rw [removeBlocker_blocks_none s X Y hb] at hl
    simp at hl
  | some arrB =>
    rw [removeBlocker_blocks s X Y arrB hb] at hl
    have := List.of_mem_filter hl
    simpa using this

theorem removeBlocker_no_empty_list (s : Store) (X Y : FileRec) :
    ((removeBlocker s X Y).fm X.path).blockedBy ≠ some [] ∧
    ((removeBlocker s X Y).fm Y.path).blocks ≠ some [] := by
  constructor
  · cases ha : (s.fm X.path).blockedBy with
    | none =>
      rw [removeBlocker_blockedBy_none s X Y ha]
      exact Option.noConfusion
    | some arr =>
      rw [removeBlocker_blockedBy_opt s X Y arr ha]
      exact if_length_ne_some_nil _
  · cases hb : (s.fm Y.path).blocks with
    | none =>
      rw [removeBlocker_blocks_none s X Y hb]
      exact Option.noConfusion
    | some arrB =>
      rw [removeBlocker_blocks_opt s X Y arrB hb]
      exact if_length_ne_some_nil _

theorem addRelated_alreadyExists_iff (s : Store) (X Y : FileRec) :
    (addRelated s X Y).2 = .alreadyExists ↔
      ∃ arr, (s.fm X.path).related = some arr
        ∧ ∃ f ∈ resolveLinks s arr, f.path = Y.path := by
  unfold addRelated
  dsimp only
  split
  · rename_i hdup
    constructor
    · intro _
      rcases hbb : (s.fm X.path).related with _ | arr
      · rw [hbb] at hdup; simp at hdup
      · rw [hbb] at hdup
        dsimp only at hdup
        rcases List.any_eq_true.mp hdup with ⟨f, hf, hfp⟩
        exact ⟨arr, rfl, f, hf, beq_iff_eq.mp hfp⟩
    · intro _; rfl
  · rename_i hdup
    constructor
    · intro h; simp at h
    · rintro ⟨arr, harr, f, hf, hfp⟩
      exact absurd (by rw [harr]; exact List.any_eq_true.mpr ⟨f, hf, beq_iff_eq.mpr hfp⟩) hdup

/-- C3: for every store, every relation type and every entity,
`validate(T, E, E)` is false — a self-link is rejected up front by the
identity check, for all five relation types. -/
theorem validate_self_link_false (s : Store) (t : RelationType) (E : FileRec) :
    validateRelationship s t E E = false := by
  unfold validateRelationship
  rw [if_pos rfl]

/-- C2: given a chain A→parent=B, B→parent=C (with A and B distinct
paths), `validate('parent', C, A)` is false — the proposed edge would
close the cycle C→A→B→C; and for every D whose path is not A's own nor
on A's walked ancestor chain, `validate('parent', D, A)` is true. -/
theorem validate_parent_cycle_chain (s : Store) (A B C D : FileRec)
    (hAB : parentResolvesTo s A B) (hBC : parentResolvesTo s B C)
    (hABne : A.path ≠ B.path) :
    validateRelationship s .parent C A = false ∧
    (D.path ∉ A.path :: ancestorChain s A →
      validateRelationship s .parent D A = true) := by
  obtain ⟨la, hla, ta, hta, hra⟩ := hAB
  obtain ⟨lb, hlb, tb, htb, hrb⟩ := hBC
  constructor
  · unfold validateRelationship
    by_cases hCA : C.path = A.path
    · rw [if_pos hCA]
    · rw [if_neg hCA, if_pos rfl]
      have hdet : detectParentCycle s C A = true := by
        unfold detectParentCycle cycleFuel
        rw [detectCycleAux_step s C.path (s.files.length + 1) A []
          (List.not_mem_nil _) hla hta hra]
        by_cases hBCp : B.path = C.path
        · rw [if_pos hBCp]
        · rw [if_neg hBCp]
          rw [detectCycleAux_step s C.path s.files.length B [A.path]
            (by simp only [List.mem_singleton]; exact fun hc => hABne hc.symm)
            hlb htb hrb]
          rw [if_pos rfl]
      rw [hdet]
      rfl
  · intro hD
    have hDA : D.path ≠ A.path := fun hc => hD (hc ▸ List.mem_cons_self _ _)
    unfold validateRelationship
    rw [if_neg hDA, if_pos rfl]
    have hdet : detectParentCycle s D A = false := by
      unfold detectParentCycle
      have hmem : D.path ∉ walkChainAux s (cycleFuel s) A [] := fun hm =>
        hD (List.mem_cons_of_mem _ hm)
      exact Bool.eq_false_iff.mpr fun htrue =>
        hmem ((detectCycleAux_iff_mem_walkChain s D.path (cycleFuel s) A []).mp htrue)
    rw [hdet]
    rfl

/-- C2 witness: in `chainStore` (A→B→C plus unrelated D), validating C
as A's parent is rejected, and validating D as A's parent is allowed. -/
theorem validate_parent_cycle_chain_witness :
    validateRelationship chainStore .parent chainC chainA = false ∧
    validateRelationship chainStore .parent chainD chainA = true :=
  ⟨(validate_parent_cycle_chain chainStore chainA chainB chainC chainD
      ⟨"[[B]]", rfl, "B", by decide, by decide⟩
      ⟨"[[C]]", rfl, "C", by decide, by decide⟩ (by decide)).1,
   (validate_parent_cycle_chain chainStore chainA chainB chainC chainD
      ⟨"[[B]]", rfl, "B", by decide, by decide⟩
      ⟨"[[C]]", rfl, "C", by decide, by decide⟩ (by decide)).2 (by decide)⟩

/-- C7: the ancestor-cycle walk (a) reports no-cycle on a revisited
entity, whatever the fuel; (b) reports no-cycle when the parent field is
absent, and (c) when the parent reference is dangling (fails to
resolve); (d) is stable under any fuel of at least `cycleFuel` — the
unbounded source recursion terminates with this answer on every graph
state, even one whose stored parent graph already contains a cycle; and
(e) marks at most as many entities as exist in the store. -/
theorem cycle_walk_termination_properties :
    (∀ (s : Store) (target : String) (f : Nat) (current : FileRec)
       (visited : List String),
       current.path ∈ visited → detectCycleAux s target f current visited = false) ∧
    (∀ (s : Store) (issue parentFile : FileRec),
       (s.fm parentFile.path).parent = none →
       detectParentCycle s issue parentFile = false) ∧
    (∀ (s : Store) (issue parentFile : FileRec) (link t : String),
       (s.fm parentFile.path).parent = some link →
       (parseWikilinksStr link).head? = some t →
       resolveLink s t = none →
       detectParentCycle s issue parentFile = false) ∧
    (∀ (s : Store) (target : String) (f : Nat) (current : FileRec),
       cycleFuel s ≤ f →
       detectCycleAux s target f current []
         = detectCycleAux s target (cycleFuel s) current []) ∧
    (∀ (s : Store) (target : String) (current : FileRec), current ∈ s.files →
       cycleWalkCountAux s target (cycleFuel s) current [] ≤ s.files.length) := by
  refine ⟨detectCycleAux_visited, ?_, ?_, ?_, ?_⟩
  · intro s issue pf h
    unfold detectParentCycle cycleFuel
    exact detectCycleAux_stop_noparent s issue.path (s.files.length + 1) pf []
      (List.not_mem_nil _) h
  · intro s issue pf link t hl ht hr
    unfold detectParentCycle cycleFuel
    exact detectCycleAux_stop_dangling s issue.path (s.files.length + 1) pf []
      (List.not_mem_nil _) hl ht hr
  · intro s target f current hf
    exact detectCycleAux_fuel s target f (cycleFuel s) current []
      (le_trans (cycleNeed_le_cycleFuel s current) hf)
      (cycleNeed_le_cycleFuel s current)
  · intro s target current hcur
    have h1 := cycleWalkCountAux_le s target (cycleFuel s) current [] hcur
    have h2 : unvisitedCount s [] ≤ s.files.length := by
      unfold unvisitedCount
      exact List.length_filter_le _ _
    omega

/-- C7 witness: the dangling-reference scenario — ISSUE-20's parent
points at a deleted entity, the walk reports no-cycle, and the walk from
a stored entity marks at most as many entities as the store holds. -/
theorem cycle_walk_termination_properties_witness :
    detectParentCycle dangStore dangIssue dangIssue = false ∧
    cycleWalkCountAux dangStore dangIssue.path (cycleFuel dangStore) dangIssue []
      ≤ dangStore.files.length :=
  ⟨cycle_walk_termination_properties.2.2.1 dangStore dangIssue dangIssue "[[GONE]]" "GONE"
      rfl (by decide) (by decide),
   cycle_walk_termination_properties.2.2.2.2 dangStore dangIssue.path dangIssue (by decide)⟩

/-- C1 counterexample: in `cexStore`, E already has parent Q and the
proposed parent P is rejected by the Validator (cycle), yet Q's
`sub-issues` set changed from `["[[E]]"]` to absent — the detach step
runs before validation, so the operation does not abort "without
performing any write". -/
theorem setParent_rejection_writes_detach_cex :
    (setParent cexStore cexE (some cexP)).2 = .cycleRejected ∧
    (cexStore.fm cexQ.path).subIssues = some ["[[E]]"] ∧
    ((setParent cexStore cexE (some cexP)).1.fm cexQ.path).subIssues = none :=
  ⟨by decide, by decide, by decide⟩

/-- C1 (amended): when the Validator rejects the new parent, `setParent`
signals CycleRejected and performs no write beyond the already-performed
detach: the final state is exactly the post-detach state, every parent
field (including E's) is unchanged, the whole store is unchanged when E
had no resolvable current parent, and when it had one only that old
parent's record can differ. -/
theorem setParent_rejection_aborts_after_detach (s : Store) (E P : FileRec)
    (hrej : validateRelationship (setParentDetach s E) .parent E P = false) :
    (setParent s E (some P)).2 = .cycleRejected ∧
    (setParent s E (some P)).1 = setParentDetach s E ∧
    (∀ q, ((setParent s E (some P)).1.fm q).parent = (s.fm q).parent) ∧
    (currentParentOf s E = none → (setParent s E (some P)).1 = s) ∧
    (∀ cp, currentParentOf s E = some cp →
      ∀ q, q ≠ cp.path → (setParent s E (some P)).1.fm q = s.fm q) := by
  rw [setParent_reject s E P hrej]
  exact ⟨rfl, rfl, fun q => setParentDetach_fm_parent s E q,
    fun hcp => setParentDetach_none s E hcp,
    fun cp hcp q hq => setParentDetach_fm_ne s E cp q hcp hq⟩

/-- C1 witness: in the rejection scenario of `cexStore`, the result is
CycleRejected and E's own parent field is untouched. -/
theorem setParent_rejection_aborts_after_detach_witness :
    (setParent cexStore cexE (some cexP)).2 = .cycleRejected ∧
    ((setParent cexStore cexE (some cexP)).1.fm cexE.path).parent
      = (cexStore.fm cexE.path).parent :=
  ⟨(setParent_rejection_aborts_after_detach cexStore cexE cexP (by decide)).1,
   (setParent_rejection_aborts_after_detach cexStore cexE cexP (by decide)).2.2.1 cexE.path⟩

/-- C4 counterexample: in `aliasStore`, X's blocked-by already holds
`[[Y|see]]`, which as a reference (parsed, alias discarded) resolves to
the same entity as `[[Y]]`; yet `addBlocker(X, Y)` does not report
AlreadyExists and appends a second entry for Y — the duplicate check
resolves the raw entry string and misses the alias form. -/
theorem alias_duplicate_not_detected_cex :
    resolveEntry aliasStore "[[Y|see]]" = some aliasY ∧
    resolveEntry aliasStore "[[Y]]" = some aliasY ∧
    (aliasStore.fm aliasX.path).blockedBy = some ["[[Y|see]]"] ∧
    (addBlocker aliasStore aliasX aliasY).2 = .ok ∧
    ((addBlocker aliasStore aliasX aliasY).1.fm aliasX.path).blockedBy
      = some ["[[Y|see]]", "[[Y]]"] :=
  ⟨by decide, by decide, by decide, by decide, by decide⟩

/-- C4 (amended): the removal filters do compare by resolved identity
through wikilink parsing — every blocked-by entry whose parsed reference
resolves to the target (alias forms included) is removed; the
duplicate-add check instead resolves each raw entry string, so it
signals AlreadyExists exactly when some raw entry resolves to the
target, which recognizes `[[Name]]` entries but not `[[Name|Alias]]`
ones. -/
theorem resolved_identity_filtering_amended (s : Store) (X Y : FileRec)
    (arr : List String) (h : (s.fm X.path).blockedBy = some arr) :
    (∀ l ∈ arr, (resolveEntry s l).map FileRec.path = some Y.path →
      l ∉ ((removeBlocker s X Y).fm X.path).blockedBy.getD []) ∧
    ((addBlocker s X Y).2 = .alreadyExists
      ↔ ∃ f ∈ resolveLinks s arr, f.path = Y.path) := by
  constructor
  · intro l hl hres
    rw [removeBlocker_blockedBy s X Y arr h]
    intro hmem
    have hpred := List.of_mem_filter hmem
    rw [decide_eq_true_eq] at hpred
    exact hpred hres
  · rw [addBlocker_alreadyExists_iff s X Y]
    constructor
    · rintro ⟨arr2, harr2, hf⟩
      rw [h, Option.some.injEq] at harr2
      subst harr2
      exact hf
    · intro hf
      exact ⟨arr, h, hf⟩

/-- C4 witness: the alias-form entry is removed by `removeBlocker`, and
the duplicate check is characterized by raw resolution. -/
theorem resolved_identity_filtering_amended_witness :
    "[[Y|see]]" ∉
      ((removeBlocker aliasStore aliasX aliasY).fm aliasX.path).blockedBy.getD [] ∧
    ((addBlocker aliasStore aliasX aliasY).2 = .alreadyExists
      ↔ ∃ f ∈ resolveLinks aliasStore ["[[Y|see]]"], f.path = aliasY.path) :=
  ⟨(resolved_identity_filtering_amended aliasStore aliasX aliasY ["[[Y|see]]"]
      (by decide)).1 "[[Y|see]]" (by decide) (by decide),
   (resolved_identity_filtering_amended aliasStore aliasX aliasY ["[[Y|see]]"]
      (by decide)).2⟩

/-- C5: after a successful `addBlocker(X, Y)`, X's blocked-by holds an
entry resolving to Y and Y's blocks holds an entry resolving to X; after
`removeBlocker(X, Y)` on that state, no entry of either field resolves
to the other issue, and neither field is left as an empty collection
(`some []` never occurs — an emptied array is cleared to absent). -/
theorem addBlocker_removeBlocker_mirroring (s : Store) (X Y : FileRec)
    (hne : X.path ≠ Y.path)
    (hcx : cleanName X.basename) (hcy : cleanName Y.basename)
    (hrx : resolveLink s X.basename = some X)
    (hry : resolveLink s Y.basename = some Y)
    (hok : (addBlocker s X Y).2 = .ok) :
    (∃ l ∈ ((addBlocker s X Y).1.fm X.path).blockedBy.getD [],
        resolveEntry (addBlocker s X Y).1 l = some Y) ∧
    (∃ l ∈ ((addBlocker s X Y).1.fm Y.path).blocks.getD [],
        resolveEntry (addBlocker s X Y).1 l = some X) ∧
    (∀ l ∈ ((removeBlocker (addBlocker s X Y).1 X Y).fm X.path).blockedBy.getD [],
        (resolveEntry (removeBlocker (addBlocker s X Y).1 X Y) l).map FileRec.path
          ≠ some Y.path) ∧
    (∀ l ∈ ((removeBlocker (addBlocker s X Y).1 X Y).fm Y.path).blocks.getD [],
        (resolveEntry (removeBlocker (addBlocker s X Y).1 X Y) l).map FileRec.path
          ≠ some X.path) ∧
    ((removeBlocker (addBlocker s X Y).1 X Y).fm X.path).blockedBy ≠ some [] ∧
    ((removeBlocker (addBlocker s X Y).1 X Y).fm Y.path).blocks ≠ some [] := by
  rcases addBlocker_cases s X Y with hcase | ⟨_, hstate⟩
  · rw [hcase] at hok
    simp at hok
  · have hfiles : (addBlocker s X Y).1.files = s.files := addBlocker_files s X Y
    refine ⟨?_, ?_, removeBlocker_clears_blockedBy _ X Y,
      removeBlocker_clears_blocks _ X Y,
      (removeBlocker_no_empty_list _ X Y).1, (removeBlocker_no_empty_list _ X Y).2⟩
    · have hmem : fileToWikilink Y ∈ ((addBlocker s X Y).1.fm X.path).blockedBy.getD [] := by
        rw [hstate, Store.setFm_fm_ne _ _ _ _ hne, Store.setFm_fm_self]
        simp
      refine ⟨fileToWikilink Y, hmem, ?_⟩
      rw [resolveEntry_congr_files hfiles, resolveEntry_fileToWikilink s Y hcy]
      exact hry
    · have hmem : fileToWikilink X ∈ ((addBlocker s X Y).1.fm Y.path).blocks.getD [] := by
        rw [hstate, Store.setFm_fm_self]
        simp
      refine ⟨fileToWikilink X, hmem, ?_⟩
      rw [resolveEntry_congr_files hfiles, resolveEntry_fileToWikilink s X hcx]
      exact hrx

/-- C5 witness: the fresh-store scenario (no existing relations). -/
theorem addBlocker_removeBlocker_mirroring_witness :
    (∃ l ∈ ((addBlocker mirStore mirX mirY).1.fm mirX.path).blockedBy.getD [],
        resolveEntry (addBlocker mirStore mirX mirY).1 l = some mirY) ∧
    (∃ l ∈ ((addBlocker mirStore mirX mirY).1.fm mirY.path).blocks.getD [],
        resolveEntry (addBlocker mirStore mirX mirY).1 l = some mirX) ∧
    (∀ l ∈ ((removeBlocker (addBlocker mirStore mirX mirY).1 mirX mirY).fm
        mirX.path).blockedBy.getD [],
        (resolveEntry (removeBlocker (addBlocker mirStore mirX mirY).1 mirX mirY) l).map
          FileRec.path ≠ some mirY.path) ∧
    (∀ l ∈ ((removeBlocker (addBlocker mirStore mirX mirY).1 mirX mirY).fm
        mirY.path).blocks.getD [],
        (resolveEntry (removeBlocker (addBlocker mirStore mirX mirY).1 mirX mirY) l).map
          FileRec.path ≠ some mirX.path) ∧
    ((removeBlocker (addBlocker mirStore mirX mirY).1 mirX mirY).fm
        mirX.path).blockedBy ≠ some [] ∧
    ((removeBlocker (addBlocker mirStore mirX mirY).1 mirX mirY).fm
        mirY.path).blocks ≠ some [] :=
  addBlocker_removeBlocker_mirroring mirStore mirX mirY (by decide) (by decide)
    (by decide) (by decide) (by decide) (by decide)

/-- C6: when the proposed relationship already holds by resolved
identity (some entry of X's blocked-by resolves to Y, resp. of X's
related for `addRelated`), the operation returns the whole store
unchanged together with AlreadyExists. -/
theorem duplicate_add_already_exists (s : Store) (X Y : FileRec) :
    (∀ arr, (s.fm X.path).blockedBy = some arr →
      (∃ f ∈ resolveLinks s arr, f.path = Y.path) →
      addBlocker s X Y = (s, .alreadyExists)) ∧
    (∀ arr, (s.fm X.path).related = some arr →
      (∃ f ∈ resolveLinks s arr, f.path = Y.path) →
      addRelated s X Y = (s, .alreadyExists)) := by
  constructor
  · rintro arr h ⟨f, hf, hfp⟩
    exact addBlocker_dup s X Y arr h f hf hfp
  · rintro arr h ⟨f, hf, hfp⟩
    exact addRelated_dup s X Y arr h f hf hfp

/-- C6 witness: in `dupStore`, both duplicate adds are rejected with the
store unchanged. -/
theorem duplicate_add_already_exists_witness :
    addBlocker dupStore dupX dupY = (dupStore, .alreadyExists) ∧
    addRelated dupStore dupX dupY = (dupStore, .alreadyExists) :=
  ⟨(duplicate_add_already_exists dupStore dupX dupY).1 ["[[Y]]"] rfl
      ⟨dupY, by decide, rfl⟩,
   (duplicate_add_already_exists dupStore dupX dupY).2 ["[[Y]]"] rfl
      ⟨dupY, by decide, rfl⟩⟩

/-- C8: after an accepted `setParent(E, newParent)` when E's current
parent resolved to a distinct oldParent, no entry of oldParent's
sub-issues resolves to E any more, while newParent's sub-issues holds an
entry resolving to E — never both, since the detach precedes the attach.
Resolution is the Resolver's (`resolveLinks`); the hypotheses ask that
E's basename round-trip and that oldParent's pre-existing entries
resolve the same way parsed or raw. -/
theorem setParent_detach_before_attach (s : Store) (E oldP newP : FileRec)
    (hcp : currentParentOf s E = some oldP)
    (hne : oldP.path ≠ newP.path)
    (hok : (setParent s E (some newP)).2 = .ok)
    (hclean : cleanName E.basename)
    (hres : resolveLink s E.basename = some E)
    (hcanonOld : ∀ l ∈ (s.fm oldP.path).subIssues.getD [],
        resolveEntry s l = resolveLink s l) :
    (∀ f ∈ resolveLinks (setParent s E (some newP)).1
        (((setParent s E (some newP)).1.fm oldP.path).subIssues.getD []),
      f.path ≠ E.path) ∧
    (∃ f ∈ resolveLinks (setParent s E (some newP)).1
        (((setParent s E (some newP)).1.fm newP.path).subIssues.getD []),
      f.path = E.path) := by
  by_cases hv : validateRelationship (setParentDetach s E) .parent E newP = true
  · rw [setParent_ok s E newP hv]
    dsimp only
    constructor
    · intro f hf
      rw [addToSubIssues_fm_ne _ newP E oldP.path hne] at hf
      rw [setFm_parent_keeps_subIssues] at hf
      rw [setParentDetach_some s E oldP hcp] at hf
      rw [removeFromSubIssues_subIssues s oldP E] at hf
      rcases List.mem_filterMap.mp hf with ⟨l, hlmem, hlres⟩
      have hpred := List.of_mem_filter hlmem
      rw [decide_eq_true_eq] at hpred
      have hlorig := List.mem_of_mem_filter hlmem
      have hcanon := hcanonOld l hlorig
      have hfilesT : (addToSubIssues ((removeFromSubIssues s oldP E).setFm E.path fun r =>
          { r with parent := some (fileToWikilink newP) }) newP E).files = s.files := by
        rw [addToSubIssues_files, Store.setFm_files, removeFromSubIssues_files]
      rw [resolveLink_congr_files hfilesT l] at hlres
      intro hfp
      apply hpred
      rw [hcanon, hlres, Option.map_some', hfp]
    · have hresT2 : resolveLink ((setParentDetach s E).setFm E.path fun r =>
          { r with parent := some (fileToWikilink newP) }) E.basename = some E := by
        rw [resolveLink_congr_files (show _ = s.files by
          rw [Store.setFm_files, setParentDetach_files])]
        exact hres
      exact addToSubIssues_present _ newP E hclean hresT2
  · rw [setParent_reject s E newP (Bool.eq_false_iff.mpr hv)] at hok
    simp at hok

/-- C8 witness: re-parenting E from Q to N in `reStore`. -/
theorem setParent_detach_before_attach_witness :
    (∀ f ∈ resolveLinks (setParent reStore reE (some reN)).1
        (((setParent reStore reE (some reN)).1.fm reQ.path).subIssues.getD []),
      f.path ≠ reE.path) ∧
    (∃ f ∈ resolveLinks (setParent reStore reE (some reN)).1
        (((setParent reStore reE (some reN)).1.fm reN.path).subIssues.getD []),
      f.path = reE.path) :=
  setParent_detach_before_attach reStore reE reQ reN (by decide) (by decide)
    (by decide) (by decide) (by decide) (by decide)

/-- C9: `parseReferences` parses a sequence input item by item and
concatenates in order (duplicates retained); empty input yields the
empty sequence; and on any single string assembled from reference-free
junk around rendered `[[Name]]` / `[[Name|Alias]]` links, it returns
exactly the names in order, aliases discarded and each name trimmed. -/
theorem parseReferences_extraction :
    (∀ l : List String,
      parseWikilinks (.list l) = l.flatMap fun x => parseWikilinks (.str x)) ∧
    parseWikilinks (.str "") = [] ∧
    parseWikilinks (.list []) = [] ∧
    (∀ segs tail,
      (∀ seg ∈ segs, goodJunk seg.1 ∧ goodName seg.2.1 ∧ goodAlias seg.2.2) →
      goodJunk tail →
      parseWikilinksStr (renderDoc segs tail)
        = segs.map fun seg => String.mk (trimChars seg.2.1.data)) :=
  ⟨fun _ => rfl, rfl, rfl, parse_renderDoc⟩

/-- C9 witness: a document with one aliased and one padded reference. -/
theorem parseReferences_extraction_witness :
    parseWikilinksStr (renderDoc [("see ", "A", some "alias"), (" and ", " B ", none)]
      " end") = ["A", "B"] := by
  rw [parseReferences_extraction.2.2.2
    [("see ", "A", some "alias"), (" and ", " B ", none)] " end" (by decide) (by decide)]
  decide

/-- C10: each removal operation deletes every entry of the field that
parse-resolves to the target entity — the result is exactly the filter
of the original array (so multiple matching entries all go, and the
remaining entries keep their relative order), and any entry resolving to
the target is absent afterwards. -/
theorem removals_delete_all_resolving_entries (s : Store) (X Y : FileRec)
    (hne : X.path ≠ Y.path) :
    (∀ arr, (s.fm X.path).blockedBy = some arr →
      ((removeBlocker s X Y).fm X.path).blockedBy.getD []
        = arr.filter
            (fun l => decide ((resolveEntry s l).map FileRec.path ≠ some Y.path)) ∧
      ∀ l ∈ arr, (resolveEntry s l).map FileRec.path = some Y.path →
        l ∉ ((removeBlocker s X Y).fm X.path).blockedBy.getD []) ∧
    (∀ arr, (s.fm Y.path).blocks = some arr →
      ((removeBlocker s X Y).fm Y.path).blocks.getD []
        = arr.filter
            (fun l => decide ((resolveEntry s l).map FileRec.path ≠ some X.path))) ∧
    (∀ arr, (s.fm X.path).related = some arr →
      ((removeRelated s X Y).fm X.path).related.getD []
        = arr.filter
            (fun l => decide ((resolveEntry s l).map FileRec.path ≠ some Y.path))) ∧
    (∀ arr, (s.fm Y.path).related = some arr →
      ((removeRelated s X Y).fm Y.path).related.getD []
        = arr.filter
            (fun l => decide ((resolveEntry s l).map FileRec.path ≠ some X.path))) ∧
    ((removeFromSubIssues s X Y).fm X.path).subIssues.getD []
      = ((s.fm X.path).subIssues.getD []).filter
          (fun l => decide ((resolveEntry s l).map FileRec.path ≠ some Y.path)) := by
  refine ⟨?_, fun arr h => removeBlocker_blocks s X Y arr h,
    fun arr h => removeRelated_related1 s X Y hne arr h,
    fun arr h => removeRelated_related2 s X Y arr h,
    removeFromSubIssues_subIssues s X Y⟩
  intro arr h
  refine ⟨removeBlocker_blockedBy s X Y arr h, ?_⟩
  intro l _ hres
  rw [removeBlocker_blockedBy s X Y arr h]
  intro hmem
  have hpred := List.of_mem_filter hmem
  rw [decide_eq_true_eq] at hpred
  exact hpred hres

/-- C10 witness: in `remStore`, one removeBlocker call deletes both
entries resolving to Y — plain and alias form — leaving only the entry
for Z. -/
theorem removals_delete_all_resolving_entries_witness :
    ((removeBlocker remStore remX remY).fm remX.path).blockedBy.getD []
      = ["[[Z]]"] := by
  rw [((removals_delete_all_resolving_entries remStore remX remY (by decide)).1
    ["[[Y]]", "[[Z]]", "[[Y|a]]"] (by decide)).1]
  decide

end Convergent
